import Mathlib

/-!
# open_manipulator_controller: the control nucleus

A shallow embedding of `open_manipulator_controller.cpp` (class `OM_CONTROLLER`):
the tick dispatcher `process`, the service callbacks that feed it, the
destructor, and the loop of `timerThread`, followed by the properties the
specification states about them.

Conventions of the embedding.
* A member function becomes a function from the controller state to the new
  state together with the list of external calls it makes, in program order.
* `tool_position_`, joint angles and path times are `double`s that the
  controller only stores and forwards; their type is the parameter `P`.
* `struct timespec` is a pair of integers. `time_t` and `long` are 64 bit
  wide and `CLOCK_MONOTONIC` counts from boot, so the additions of
  `timerThread` stay far inside the range and are taken in `Int`.
* The `double` `delta_nsec` of `timerThread` is taken as the exact rational
  value of the expression that defines it, and the `double` `time` handed to
  `process` is represented by the pair `next_time` it is computed from.
* The macros and types of `open_manipulator_controller.h` and the engine
  `chain_` are not among the sources: the macros are parameters, the engine is
  its enable state plus the list of the calls made into it.
-/

namespace OM

/-! ## Data model -/

/-- Modelled from the spec: the type of `tool_ctrl_flag_` is declared in
`open_manipulator_controller.h`, which is not among the sources; the
specification gives the pending command three tags (none, move-absolute,
move-to-present) and the source uses exactly these three enumerators. -/
inductive ToolControlFlag
  | NONE
  | TOOL_MOVE
  | TOOL_MOVE_TO_PRESENT
  deriving DecidableEq, Repr

/-- Modelled from the spec: the component names are defined in a header that
is not among the sources; `TOOL` (the end effector) is the only one the
controller passes to the tool primitives. -/
inductive ComponentName
  | TOOL
  deriving DecidableEq, Repr

/-- The C `struct timespec`: seconds and nanoseconds. -/
structure timespec where
  tv_sec : Int
  tv_nsec : Int
  deriving DecidableEq, Repr

/-- External calls made by the controller: calls into the engine `chain_`,
the clock, the logger and the transport, plus the store to
`timer_thread_flag_` that other threads observe and the call of `process`
that `timerThread` makes (the calls of the body of `process` follow it). -/
inductive Event (P : Type)
  | chainProcess (time : timespec)
  | toolMove (name : ComponentName) (p : P)
  | toolMoveToPresentValue (name : ComponentName) (p : P)
  | jointTrajectoryMove (target_angle : List P) (path_time : P)
  | jointTrajectoryMoveToPresentValue (target_angle : List P) (path_time : P)
  | allActuatorEnable
  | allActuatorDisable
  | clock_gettime (now : timespec)
  | clock_nanosleep (request : timespec)
  | WARN (msg : String) (value : ℚ)
  | INFO (msg : String)
  | usleep (usec : Nat)
  | ros_shutdown
  | store_timer_thread_flag (b : Bool)
  | process (time : timespec)

/-- The fields of `OM_CONTROLLER` that the modelled functions read or write.
`chain_enabled` is the enable state held by the engine `chain_`: the value
`chain_.isEnabled()` returns. -/
structure OM_CONTROLLER (P : Type) where
  tool_ctrl_flag_ : ToolControlFlag
  timer_thread_flag_ : Bool
  tool_position_ : P
  chain_enabled : Bool

/-- Exceptions a callback can raise: `std::out_of_range` from `vector::at`. -/
inductive Exception
  | out_of_range
  deriving DecidableEq, Repr

/-- The message `open_manipulator_msgs::JointPosition`, fields used here. -/
structure JointPosition (P : Type) where
  joint_name : List String
  position : List P

/-- The request of `open_manipulator_msgs::SetJointPosition`. -/
structure SetJointPositionRequest (P : Type) where
  joint_position : JointPosition P
  path_time : P

/-- The response of `open_manipulator_msgs::SetJointPosition`. -/
structure SetJointPositionResponse where
  isPlanned : Bool
  deriving DecidableEq, Repr

/-- The response of `std_srvs::Trigger`. -/
structure TriggerResponse where
  success : Bool
  message : String
  deriving DecidableEq, Repr

variable {P : Type}

/-! ## The tick dispatcher -/

/-- The body of `OM_CONTROLLER::process(double time)`: `chainProcess(time)`,
then the `switch` on `tool_ctrl_flag_`. -/
def process (time : timespec) (c : OM_CONTROLLER P) : OM_CONTROLLER P × List (Event P) :=
  match c.tool_ctrl_flag_ with
  | .TOOL_MOVE =>
      ({ c with tool_ctrl_flag_ := .NONE },
        [.chainProcess time, .toolMove .TOOL c.tool_position_])
  | .TOOL_MOVE_TO_PRESENT =>
      ({ c with tool_ctrl_flag_ := .NONE },
        [.chainProcess time, .toolMoveToPresentValue .TOOL c.tool_position_])
  | .NONE => (c, [.chainProcess time])

/-- Is the call one of the two tool primitives? -/
def Event.isToolPrimitive : Event P → Bool
  | .toolMove _ _ => true
  | .toolMoveToPresentValue _ _ => true
  | _ => false

/-- The tool primitives among a list of calls, in order. -/
def toolCalls (es : List (Event P)) : List (Event P) :=
  es.filter Event.isToolPrimitive

/-- A run of `process`, one call per timestamp; the calls of each tick are
kept apart. -/
def ticks : List timespec → OM_CONTROLLER P → OM_CONTROLLER P × List (List (Event P))
  | [], c => (c, [])
  | t :: ts, c =>
      let r := process t c
      let rs := ticks ts r.1
      (rs.1, r.2 :: rs.2)

/-! ## Service callbacks -/

/-- The checked access `std::vector::at`. -/
def vector_at (v : List P) (i : Nat) : Except Exception P :=
  match v[i]? with
  | some x => .ok x
  | none => .error .out_of_range

/-- The body of `goalToolControlCallback`. -/
def goalToolControlCallback (req : SetJointPositionRequest P)
    (res : SetJointPositionResponse) (c : OM_CONTROLLER P) :
    Except Exception (Bool × SetJointPositionResponse × OM_CONTROLLER P) :=
  match vector_at req.joint_position.position 0 with
  | .error e => .error e
  | .ok x =>
      let c := { c with tool_position_ := x }
      let c := { c with tool_ctrl_flag_ := .TOOL_MOVE }
      .ok (true, { res with isPlanned := true }, c)

/-- The body of `goalToolControlToPresentCallback`. -/
def goalToolControlToPresentCallback (req : SetJointPositionRequest P)
    (res : SetJointPositionResponse) (c : OM_CONTROLLER P) :
    Except Exception (Bool × SetJointPositionResponse × OM_CONTROLLER P) :=
  match vector_at req.joint_position.position 0 with
  | .error e => .error e
  | .ok x =>
      let c := { c with tool_position_ := x }
      let c := { c with tool_ctrl_flag_ := .TOOL_MOVE_TO_PRESENT }
      .ok (true, { res with isPlanned := true }, c)

/-- The state `OM_CONTROLLER::OM_CONTROLLER()` leaves: the member
initialisers, then `setTimerThread` sets `timer_thread_flag_`. The enable
state is whatever `chain_.initManipulator` leaves. -/
def constructed [Zero P] (enabled : Bool) : OM_CONTROLLER P :=
  { tool_ctrl_flag_ := .NONE
    timer_thread_flag_ := true
    tool_position_ := 0
    chain_enabled := enabled }

/-! ## Tool-command submissions -/

/-- The two tool commands of the specification. -/
inductive ToolCommand (P : Type)
  | MoveAbsolute (p : P)
  | MoveToPresent (p : P)

/-- The target of a tool command. -/
def ToolCommand.target : ToolCommand P → P
  | .MoveAbsolute p => p
  | .MoveToPresent p => p

/-- The tag a command is stored under in `tool_ctrl_flag_`. -/
def ToolCommand.flag : ToolCommand P → ToolControlFlag
  | .MoveAbsolute _ => .TOOL_MOVE
  | .MoveToPresent _ => .TOOL_MOVE_TO_PRESENT

/-- The tool primitive the specification assigns to a command. -/
def ToolCommand.primitive : ToolCommand P → Event P
  | .MoveAbsolute p => .toolMove .TOOL p
  | .MoveToPresent p => .toolMoveToPresentValue .TOOL p

/-- A submission of a tool command: a service call whose request carries
the target as the first entry of `position`; the other fields are free. -/
structure Submission (P : Type) where
  command : ToolCommand P
  joint_name : List String
  rest : List P
  path_time : P
  res : SetJointPositionResponse

/-- The request a submission sends. -/
def Submission.request (x : Submission P) : SetJointPositionRequest P :=
  { joint_position := { joint_name := x.joint_name, position := x.command.target :: x.rest }
    path_time := x.path_time }

/-- The service call of a submission: `MoveAbsolute` goes to
`goalToolControlCallback`, `MoveToPresent` to
`goalToolControlToPresentCallback`. -/
def Submission.call (x : Submission P) (c : OM_CONTROLLER P) :
    Except Exception (Bool × SetJointPositionResponse × OM_CONTROLLER P) :=
  match x.command with
  | .MoveAbsolute _ => goalToolControlCallback x.request x.res c
  | .MoveToPresent _ => goalToolControlToPresentCallback x.request x.res c

/-- A sequence of submissions, each run to completion before the next. -/
def submitAll : List (Submission P) → OM_CONTROLLER P → Except Exception (OM_CONTROLLER P)
  | [], c => .ok c
  | x :: xs, c =>
      match x.call c with
      | .error e => .error e
      | .ok r => submitAll xs r.2.2

/-- The states the first property starts from: the constructed state, or a
state reached right after a call of `process`. -/
def StartState [Zero P] (c : OM_CONTROLLER P) : Prop :=
  (∃ enabled, c = constructed enabled) ∨ ∃ t c0, c = (process t c0).1

/-! ## Joint-space callbacks, torque toggle, destructor -/

/-- Modelled from the spec: `chain_.allActuatorDisable()` belongs to the
engine, which is not among the sources; it leaves the actuators disabled. -/
def allActuatorDisable (c : OM_CONTROLLER P) : OM_CONTROLLER P × List (Event P) :=
  ({ c with chain_enabled := false }, [.allActuatorDisable])

/-- Modelled from the spec: `chain_.allActuatorEnable()` belongs to the
engine, which is not among the sources; it leaves the actuators enabled. -/
def allActuatorEnable (c : OM_CONTROLLER P) : OM_CONTROLLER P × List (Event P) :=
  ({ c with chain_enabled := true }, [.allActuatorEnable])

/-- Modelled from the spec: `chain_.isEnabled()` belongs to the engine,
which is not among the sources; it reads the enable state. -/
def isEnabled (c : OM_CONTROLLER P) : Bool :=
  c.chain_enabled

/-- The body of `toggleTorqueCallback`. -/
def toggleTorqueCallback (res : TriggerResponse) (c : OM_CONTROLLER P) :
    Bool × TriggerResponse × OM_CONTROLLER P × List (Event P) :=
  if isEnabled c then
    let r := allActuatorDisable c
    let res := { res with message := "Torque Disabled" }
    (true, { res with success := true }, r.1, r.2)
  else
    let r := allActuatorEnable c
    let res := { res with message := "Torque Enabled" }
    (true, { res with success := true }, r.1, r.2)

/-- The body of `OM_CONTROLLER::~OM_CONTROLLER()`. -/
def destructor (c : OM_CONTROLLER P) : OM_CONTROLLER P × List (Event P) :=
  let c := { c with timer_thread_flag_ := false }
  let r := allActuatorDisable c
  (r.1, [.store_timer_thread_flag false, .usleep (10 * 1000),
      .INFO "Shutdown the OpenManipulator"] ++ r.2 ++ [.ros_shutdown])

/-- Does an event satisfying `p` occur in the list before a later event
satisfying `q`? -/
def occursBefore (p q : Event P → Bool) : List (Event P) → Bool
  | [] => false
  | e :: es => (p e && es.any q) || occursBefore p q es

/-! ## The periodic scheduler -/

/-- The macros of `open_manipulator_controller.h` that `timerThread` uses;
the header is not among the sources, so their values are parameters. -/
structure Macros where
  ACTUATOR_CONTROL_TIME_MSEC : Int
  ACTUATOR_CONTROL_TIME : ℚ

/-- The period in nanoseconds, `ACTUATOR_CONTROL_TIME_MSEC * 1000000`. -/
def Macros.period (m : Macros) : Int :=
  m.ACTUATOR_CONTROL_TIME_MSEC * 1000000

/-- The time of a `timespec` in nanoseconds. -/
def timespec.toNsec (t : timespec) : Int :=
  t.tv_sec * 1000000000 + t.tv_nsec

/-- A `timespec` is normalized when `0 <= tv_nsec < 10^9`. -/
def timespec.normalized (t : timespec) : Prop :=
  0 ≤ t.tv_nsec ∧ t.tv_nsec < 1000000000

instance (t : timespec) : Decidable t.normalized := by
  unfold timespec.normalized
  exact inferInstance

/-- The two assignments that advance `next_time` by one period; `/` and `%`
are the truncating operators of C, and the second assignment reads the
`tv_nsec` the first one left untouched. -/
def advance (m : Macros) (next_time : timespec) : timespec :=
  let tv_sec := next_time.tv_sec +
    Int.tdiv (next_time.tv_nsec + m.ACTUATOR_CONTROL_TIME_MSEC * 1000000) 1000000000
  let tv_nsec :=
    Int.tmod (next_time.tv_nsec + m.ACTUATOR_CONTROL_TIME_MSEC * 1000000) 1000000000
  { tv_sec := tv_sec, tv_nsec := tv_nsec }

/-- The expression assigned to `delta_nsec`, with its exact value. -/
def delta_nsec (next_time curr_time : timespec) : ℚ :=
  ((next_time.tv_sec - curr_time.tv_sec : Int) : ℚ) +
    ((next_time.tv_nsec - curr_time.tv_nsec : Int) : ℚ) * 0.000000001

/-- The variables of `timerThread`: the controller it points to and the two
static `timespec`s. -/
structure ThreadState (P : Type) where
  controller : OM_CONTROLLER P
  next_time : timespec
  curr_time : timespec

/-- One execution of the body of the `while` loop of `timerThread`; `clock`
is the value `clock_gettime` stores into `curr_time`. -/
def timerIteration (m : Macros) (clock : timespec) (s : ThreadState P) :
    ThreadState P × List (Event P) :=
  let next_time := advance m s.next_time
  let time := next_time
  let r := process time s.controller
  let curr_time := clock
  let delta := delta_nsec next_time curr_time
  if delta < 0 then
    ({ controller := r.1, next_time := curr_time, curr_time := curr_time },
      [.process time] ++ r.2 ++ [.clock_gettime curr_time,
        .WARN "control time :" (m.ACTUATOR_CONTROL_TIME - delta)])
  else
    ({ controller := r.1, next_time := next_time, curr_time := curr_time },
      [.process time] ++ r.2 ++ [.clock_gettime curr_time, .clock_nanosleep next_time])

/-- The `while(controller->timer_thread_flag_)` loop: one iteration per clock
reading supplied, the calls of each iteration kept apart. The flag is
cleared from another thread (the destructor), never by the loop. -/
def timerLoop (m : Macros) : List timespec → ThreadState P →
    ThreadState P × List (List (Event P))
  | [], s => (s, [])
  | clock :: clocks, s =>
      if s.controller.timer_thread_flag_ then
        let r := timerIteration m clock s
        let rs := timerLoop m clocks r.1
        (rs.1, r.2 :: rs.2)
      else (s, [])

/-- The function `timerThread`: `t0` is the value the first `clock_gettime`
stores into `next_time`, `clocks` are the later readings. The static
`curr_time` starts zeroed. -/
def timerThread (m : Macros) (t0 : timespec) (clocks : List timespec)
    (c : OM_CONTROLLER P) : ThreadState P × List (List (Event P)) :=
  timerLoop m clocks { controller := c, next_time := t0, curr_time := ⟨0, 0⟩ }

/-- The timestamps handed to `process` in a list of calls, in order. -/
def processStamps (es : List (Event P)) : List timespec :=
  es.filterMap (fun e => match e with
    | .process t => some t
    | _ => none)

/-- The timestamps handed to `process` over a run, iteration by iteration. -/
def stampsOfRun : List (List (Event P)) → List timespec
  | [] => []
  | es :: rest => processStamps es ++ stampsOfRun rest

/-- Is the event the call `process(T)`? -/
def Event.isProcess (T : timespec) : Event P → Bool
  | .process t => decide (t = T)
  | _ => false

/-- Is the event a clock reading? -/
def Event.isClockRead : Event P → Bool
  | .clock_gettime _ => true
  | _ => false

/-- Is the event the absolute sleep until `T`? -/
def Event.isSleepUntil (T : timespec) : Event P → Bool
  | .clock_nanosleep t => decide (t = T)
  | _ => false

/-- Is the event a sleep? -/
def Event.isSleep : Event P → Bool
  | .clock_nanosleep _ => true
  | _ => false

/-- Is the event the overrun diagnostic, which marks the resynchronization? -/
def Event.isWARN : Event P → Bool
  | .WARN _ _ => true
  | _ => false

/-- The macros with the period of the specification, 8 ms. -/
def macros8ms : Macros :=
  { ACTUATOR_CONTROL_TIME_MSEC := 8, ACTUATOR_CONTROL_TIME := 0.008 }

/-! ## The command channel under interleaving

`goalToolControlCallback` and `goalToolControlToPresentCallback` run on the
thread that serves requests, `process` on the timer thread, and the source
takes no lock. Each statement that touches `tool_position_` or
`tool_ctrl_flag_` is one step here, and a schedule says which thread takes
the next step. -/

/-- The two execution contexts that touch the command channel. -/
inductive Actor
  | requester
  | dispatcher
  deriving DecidableEq, Repr

/-- Where the requester stands: outside a callback, or inside one, after
the store to `tool_position_` and before the store to `tool_ctrl_flag_`. -/
inductive RequesterPc (P : Type)
  | idle
  | position_stored (cmd : ToolCommand P)

/-- Where the dispatcher stands inside `process`: outside, after
`chainProcess` and before the `switch` reads `tool_ctrl_flag_`, after that
read and before the read of `tool_position_`, after it and before the call of
the primitive, and after the call and before the store of `NONE`. -/
inductive DispatcherPc (P : Type)
  | idle
  | at_switch
  | at_case (flag : ToolControlFlag)
  | at_call (flag : ToolControlFlag) (p : P)
  | at_store

/-- The two threads and the controller they share: the commands the
requester still has to submit, the timestamps of the calls of `process`
still to come, and the engine calls made so far. -/
structure Interleaved (P : Type) where
  controller : OM_CONTROLLER P
  submissions : List (ToolCommand P)
  stamps : List timespec
  requester : RequesterPc P
  dispatcher : DispatcherPc P
  calls : List (Event P)

/-- Both threads outside their operations, nothing called yet. -/
def Interleaved.init (c : OM_CONTROLLER P) (cmds : List (ToolCommand P))
    (ts : List timespec) : Interleaved P :=
  { controller := c, submissions := cmds, stamps := ts,
    requester := .idle, dispatcher := .idle, calls := [] }

/-- One step of the requester: `tool_position_ = req.joint_position.position.at(0)`
of the next submission, or the store of its tag to `tool_ctrl_flag_`. -/
def requesterStep (s : Interleaved P) : Interleaved P :=
  match s.requester with
  | .idle =>
      match s.submissions with
      | [] => s
      | cmd :: cmds =>
          { s with controller := { s.controller with tool_position_ := cmd.target }
                   submissions := cmds
                   requester := .position_stored cmd }
  | .position_stored cmd =>
      { s with controller := { s.controller with tool_ctrl_flag_ := cmd.flag }
               requester := .idle }

/-- The call the `case` of tag `flag` makes with the position `p` it read. -/
def primitiveCalls (flag : ToolControlFlag) (p : P) : List (Event P) :=
  match flag with
  | .TOOL_MOVE => [.toolMove .TOOL p]
  | .TOOL_MOVE_TO_PRESENT => [.toolMoveToPresentValue .TOOL p]
  | .NONE => []

/-- One step of the dispatcher inside `process`. -/
def dispatcherStep (s : Interleaved P) : Interleaved P :=
  match s.dispatcher with
  | .idle =>
      match s.stamps with
      | [] => s
      | t :: ts =>
          { s with stamps := ts, dispatcher := .at_switch
                   calls := s.calls ++ [.chainProcess t] }
  | .at_switch =>
      match s.controller.tool_ctrl_flag_ with
      | .NONE => { s with dispatcher := .idle }
      | .TOOL_MOVE => { s with dispatcher := .at_case .TOOL_MOVE }
      | .TOOL_MOVE_TO_PRESENT => { s with dispatcher := .at_case .TOOL_MOVE_TO_PRESENT }
  | .at_case flag =>
      { s with dispatcher := .at_call flag s.controller.tool_position_ }
  | .at_call flag p =>
      { s with dispatcher := .at_store, calls := s.calls ++ primitiveCalls flag p }
  | .at_store =>
      { s with controller := { s.controller with tool_ctrl_flag_ := .NONE }
               dispatcher := .idle }

/-- One step of the chosen thread. -/
def interleavedStep (a : Actor) (s : Interleaved P) : Interleaved P :=
  match a with
  | .requester => requesterStep s
  | .dispatcher => dispatcherStep s

/-- The run of a schedule. -/
def interleave : List Actor → Interleaved P → Interleaved P
  | [], s => s
  | a :: as, s => interleave as (interleavedStep a s)

/-- The number of steps the next operation of a thread takes: two stores
for a submission, two or five steps for a call of `process`. -/
def operationSteps (a : Actor) (s : Interleaved P) : Nat :=
  match a with
  | .requester =>
      match s.submissions with
      | [] => 0
      | _ :: _ => 2
  | .dispatcher =>
      match s.stamps with
      | [] => 0
      | _ :: _ =>
          match s.controller.tool_ctrl_flag_ with
          | .NONE => 2
          | _ => 5

/-- Is the requester outside a callback? -/
def RequesterPc.isIdle : RequesterPc P → Bool
  | .idle => true
  | _ => false

/-- Is the dispatcher outside `process`? -/
def DispatcherPc.isIdle : DispatcherPc P → Bool
  | .idle => true
  | _ => false

/-- The steps that keep a submission out of the window of `process` and
`process` out of the window of a submission. A step is not admissible when
(a) it stores `tool_position_` after `process` has read a pending tag and
before it has read `tool_position_`, or (b) it stores `tool_ctrl_flag_` after
`process` has read a pending tag and before it has stored `NONE`, or (c) it is
the read of `tool_ctrl_flag_` by `process`, made between the two stores of a
submission while an earlier command is still pending. Every other step is
admissible, whatever the two threads are doing. -/
def admissibleStep (a : Actor) (s : Interleaved P) : Bool :=
  match a, s.requester, s.dispatcher with
  | .requester, .idle, .at_case _ => s.submissions.isEmpty
  | .requester, .position_stored _, .at_case _ => false
  | .requester, .position_stored _, .at_call _ _ => false
  | .requester, .position_stored _, .at_store => false
  | .dispatcher, .position_stored _, .at_switch =>
      (match s.controller.tool_ctrl_flag_ with
        | .NONE => true
        | _ => false)
  | _, _, _ => true

/-- A schedule all of whose steps are admissible in the state they are
taken in. -/
def admissible : List Actor → Interleaved P → Bool
  | [], _ => true
  | a :: as, s => admissibleStep a s && admissible as (interleavedStep a s)

/-- The step at which an operation takes effect: the store of
`tool_ctrl_flag_` for a submission, the read of `tool_ctrl_flag_` for a call
of `process`. -/
def isLinearizationPoint (a : Actor) (s : Interleaved P) : Bool :=
  match a, s.requester, s.dispatcher with
  | .requester, .position_stored _, _ => true
  | .dispatcher, _, .at_switch => true
  | _, _, _ => false

/-- The operations of a schedule in the order in which they take effect. -/
def linearization : List Actor → Interleaved P → List Actor
  | [], _ => []
  | a :: as, s =>
      if isLinearizationPoint a s then a :: linearization as (interleavedStep a s)
      else linearization as (interleavedStep a s)

/-- The pending command a controller state holds. -/
def channelOf (c : OM_CONTROLLER P) : Option (ToolCommand P) :=
  match c.tool_ctrl_flag_ with
  | .NONE => none
  | .TOOL_MOVE => some (.MoveAbsolute c.tool_position_)
  | .TOOL_MOVE_TO_PRESENT => some (.MoveToPresent c.tool_position_)

/-- The `submit` of the Command Channel as the specification words it: the
command overwrites the slot. -/
def spec_submit (cmd : ToolCommand P) (_ : Option (ToolCommand P)) : Option (ToolCommand P) :=
  some cmd

/-- The `takeAndClear` of the Command Channel as the specification words
it: one step that returns the slot and leaves `None`. -/
def spec_takeAndClear (ch : Option (ToolCommand P)) :
    Option (ToolCommand P) × Option (ToolCommand P) :=
  (ch, none)

/-- The Tick Dispatcher as the specification words it: the trajectory
advance, then `takeAndClear` and the dispatch by tag. -/
def spec_dispatch (t : timespec) (ch : Option (ToolCommand P)) :
    Option (ToolCommand P) × List (Event P) :=
  let r := spec_takeAndClear ch
  (r.2, .chainProcess t ::
    (match r.1 with
      | none => []
      | some cmd => [cmd.primitive]))

/-- The Command Channel of the specification with its two users: the slot,
the commands still to submit, the timestamps of the ticks still to come and
the engine calls made so far. -/
structure SpecChannel (P : Type) where
  channel : Option (ToolCommand P)
  cmds : List (ToolCommand P)
  stamps : List timespec
  calls : List (Event P)

/-- One atomic operation on the Command Channel of the specification: the
next `submit`, or the next tick with its `takeAndClear`. -/
def spec_step (a : Actor) (A : SpecChannel P) : SpecChannel P :=
  match a with
  | .requester =>
      match A.cmds with
      | [] => A
      | cmd :: cmds => { A with channel := spec_submit cmd A.channel, cmds := cmds }
  | .dispatcher =>
      match A.stamps with
      | [] => A
      | t :: ts =>
          { A with channel := (spec_dispatch t A.channel).1
                   stamps := ts
                   calls := A.calls ++ (spec_dispatch t A.channel).2 }

/-- A sequence of atomic operations on the Command Channel of the
specification. -/
def spec_exec : List Actor → SpecChannel P → SpecChannel P
  | [], A => A
  | a :: as, A => spec_exec as (spec_step a A)

/-- The atomic channel at the start of a run. -/
def SpecChannel.init (c : OM_CONTROLLER P) (cmds : List (ToolCommand P))
    (ts : List timespec) : SpecChannel P :=
  { channel := channelOf c, cmds := cmds, stamps := ts, calls := [] }

/-- The state of the two threads seen as a state of the atomic channel in
which the operations that have taken effect are complete. A submission counts
from its store of `tool_ctrl_flag_`; a call of `process` counts from its read
of `tool_ctrl_flag_`, so between that read and the store of `NONE` the atomic
channel is already empty and already holds the call of the primitive. -/
def Simulates (s : Interleaved P) (A : SpecChannel P) : Prop :=
  A.cmds = (match s.requester with
    | .idle => s.submissions
    | .position_stored cmd => cmd :: s.submissions) ∧
  (match s.requester with
    | .idle => True
    | .position_stored cmd => s.controller.tool_position_ = cmd.target) ∧
  (match s.dispatcher with
    | .idle =>
        A.stamps = s.stamps ∧ A.calls = s.calls ∧
        (match s.requester, s.controller.tool_ctrl_flag_ with
          | .position_stored _, .TOOL_MOVE => True
          | .position_stored _, .TOOL_MOVE_TO_PRESENT => True
          | _, _ => A.channel = channelOf s.controller)
    | .at_switch =>
        (match A.stamps with
          | [] => False
          | t :: ts => ts = s.stamps ∧ s.calls = A.calls ++ [.chainProcess t]) ∧
        (match s.requester, s.controller.tool_ctrl_flag_ with
          | .position_stored _, .TOOL_MOVE => True
          | .position_stored _, .TOOL_MOVE_TO_PRESENT => True
          | _, _ => A.channel = channelOf s.controller)
    | .at_case flag =>
        A.stamps = s.stamps ∧ A.channel = none ∧
        A.calls = s.calls ++ primitiveCalls flag s.controller.tool_position_
    | .at_call flag p =>
        A.stamps = s.stamps ∧ A.channel = none ∧ A.calls = s.calls ++ primitiveCalls flag p
    | .at_store => A.stamps = s.stamps ∧ A.channel = none ∧ A.calls = s.calls)

/-! ## Lemmas on the dispatcher and the submissions -/

theorem process_flag (t : timespec) (c : OM_CONTROLLER P) :
    (process t c).1.tool_ctrl_flag_ = .NONE := by
  unfold process
  split <;> simp_all

theorem process_calls (t : timespec) (c : OM_CONTROLLER P) :
    (process t c).2 = .chainProcess t ::
      (match c.tool_ctrl_flag_ with
        | .NONE => []
        | .TOOL_MOVE => [.toolMove .TOOL c.tool_position_]
        | .TOOL_MOVE_TO_PRESENT => [.toolMoveToPresentValue .TOOL c.tool_position_]) := by
  unfold process
  split <;> simp_all

theorem process_of_none (t : timespec) (c : OM_CONTROLLER P)
    (h : c.tool_ctrl_flag_ = .NONE) : process t c = (c, [.chainProcess t]) := by
  unfold process
  rw [h]

theorem startState_flag [Zero P] (c : OM_CONTROLLER P) (h : StartState c) :
    c.tool_ctrl_flag_ = .NONE := by
  rcases h with ⟨e, rfl⟩ | ⟨t, c0, rfl⟩
  · rfl
  · exact process_flag t c0

theorem Submission.call_ok (x : Submission P) (c : OM_CONTROLLER P) :
    ∃ r, x.call c = .ok r ∧ r.2.2.tool_position_ = x.command.target ∧
      r.2.2.tool_ctrl_flag_ = x.command.flag := by
  cases x with
  | mk command joint_name rest path_time res =>
    cases command <;>
      simp [Submission.call, Submission.request, goalToolControlCallback,
        goalToolControlToPresentCallback, vector_at, ToolCommand.target, ToolCommand.flag]

theorem ticks_of_none (ts : List timespec) (c : OM_CONTROLLER P)
    (h : c.tool_ctrl_flag_ = .NONE) :
    ticks ts c = (c, ts.map (fun t => [.chainProcess t])) := by
  induction ts with
  | nil => rfl
  | cons t ts ih => simp [ticks, process_of_none t c h, ih]

theorem submitAll_last (cmds : List (Submission P)) (c : OM_CONTROLLER P) :
    ∃ c1, submitAll cmds c = .ok c1 ∧
      (match cmds.getLast? with
        | none => c1 = c
        | some x => c1.tool_position_ = x.command.target ∧
            c1.tool_ctrl_flag_ = x.command.flag) := by
  induction cmds generalizing c with
  | nil => exact ⟨c, rfl, rfl⟩
  | cons x xs ih =>
    obtain ⟨r, hr, hpos, hflag⟩ := x.call_ok c
    obtain ⟨c1, hc1, hlast⟩ := ih r.2.2
    refine ⟨c1, by simp [submitAll, hr, hc1], ?_⟩
    cases xs with
    | nil =>
      simp only [submitAll, Except.ok.injEq] at hc1
      subst hc1
      simpa using ⟨hpos, hflag⟩
    | cons y ys =>
      rw [List.getLast?_cons_cons]
      exact hlast

theorem toolCalls_process_of_command (t : timespec) (c : OM_CONTROLLER P) (x : ToolCommand P)
    (hpos : c.tool_position_ = x.target) (hflag : c.tool_ctrl_flag_ = x.flag) :
    toolCalls (process t c).2 = [x.primitive] := by
  cases x <;>
    simp_all [process, toolCalls, Event.isToolPrimitive, ToolCommand.primitive,
      ToolCommand.target, ToolCommand.flag]

/-! ## Lemmas on the scheduler -/

theorem process_timer_thread_flag (t : timespec) (c : OM_CONTROLLER P) :
    (process t c).1.timer_thread_flag_ = c.timer_thread_flag_ := by
  unfold process
  split <;> rfl

theorem processStamps_process (t : timespec) (c : OM_CONTROLLER P) :
    processStamps (process t c).2 = [] := by
  rw [process_calls]
  cases c.tool_ctrl_flag_ <;> simp [processStamps]

theorem process_no_WARN (t : timespec) (c : OM_CONTROLLER P) :
    ∀ e ∈ (process t c).2, e.isWARN = false ∧ e.isSleep = false ∧ e.isClockRead = false ∧
      Event.isProcess t e = false := by
  rw [process_calls]
  cases c.tool_ctrl_flag_ <;>
    simp [Event.isWARN, Event.isSleep, Event.isClockRead, Event.isProcess]

theorem advance_toNsec (m : Macros) (next_time : timespec) :
    (advance m next_time).toNsec = next_time.toNsec + m.period := by
  have h := Int.tmod_add_tdiv (next_time.tv_nsec + m.ACTUATOR_CONTROL_TIME_MSEC * 1000000)
    1000000000
  simp only [advance, timespec.toNsec, Macros.period]
  linarith

theorem advance_normalized (m : Macros) (next_time : timespec)
    (h : 0 ≤ next_time.tv_nsec + m.period) : (advance m next_time).normalized := by
  simp only [advance, timespec.normalized, Macros.period] at *
  exact ⟨Int.tmod_nonneg _ h, Int.tmod_lt_of_pos _ (by decide)⟩

theorem delta_nsec_neg_iff (next_time curr_time : timespec) :
    delta_nsec next_time curr_time < 0 ↔ next_time.toNsec < curr_time.toNsec := by
  have h : delta_nsec next_time curr_time =
      ((next_time.toNsec - curr_time.toNsec : Int) : ℚ) / 1000000000 := by
    simp only [delta_nsec, timespec.toNsec]
    push_cast
    norm_num
    ring
  rw [h, div_lt_iff₀ (by norm_num), zero_mul]
  constructor
  · intro h1
    have h2 : next_time.toNsec - curr_time.toNsec < 0 := by exact_mod_cast h1
    linarith
  · intro h1
    have h2 : next_time.toNsec - curr_time.toNsec < 0 := by linarith
    exact_mod_cast h2

theorem timerIteration_overrun (m : Macros) (clock : timespec) (s : ThreadState P)
    (h : (advance m s.next_time).toNsec < clock.toNsec) :
    timerIteration m clock s =
      ({ controller := (process (advance m s.next_time) s.controller).1,
         next_time := clock, curr_time := clock },
        [.process (advance m s.next_time)] ++ (process (advance m s.next_time) s.controller).2 ++
          [.clock_gettime clock, .WARN "control time :"
            (m.ACTUATOR_CONTROL_TIME - delta_nsec (advance m s.next_time) clock)]) := by
  simp only [timerIteration]
  rw [if_pos ((delta_nsec_neg_iff _ _).2 h)]

theorem timerIteration_in_time (m : Macros) (clock : timespec) (s : ThreadState P)
    (h : ¬ (advance m s.next_time).toNsec < clock.toNsec) :
    timerIteration m clock s =
      ({ controller := (process (advance m s.next_time) s.controller).1,
         next_time := advance m s.next_time, curr_time := clock },
        [.process (advance m s.next_time)] ++ (process (advance m s.next_time) s.controller).2 ++
          [.clock_gettime clock, .clock_nanosleep (advance m s.next_time)]) := by
  simp only [timerIteration]
  rw [if_neg (fun h1 => h ((delta_nsec_neg_iff _ _).1 h1))]

theorem timerIteration_flag (m : Macros) (clock : timespec) (s : ThreadState P) :
    (timerIteration m clock s).1.controller.timer_thread_flag_ =
      s.controller.timer_thread_flag_ := by
  by_cases h : (advance m s.next_time).toNsec < clock.toNsec
  · rw [timerIteration_overrun m clock s h]
    exact process_timer_thread_flag _ _
  · rw [timerIteration_in_time m clock s h]
    exact process_timer_thread_flag _ _

theorem timerIteration_stamps (m : Macros) (clock : timespec) (s : ThreadState P) :
    processStamps (timerIteration m clock s).2 = [advance m s.next_time] := by
  have hp := processStamps_process (advance m s.next_time) s.controller
  unfold processStamps at hp
  by_cases h : (advance m s.next_time).toNsec < clock.toNsec
  · rw [timerIteration_overrun m clock s h]
    simp [processStamps, List.filterMap_append, hp]
  · rw [timerIteration_in_time m clock s h]
    simp [processStamps, List.filterMap_append, hp]

theorem timerLoop_cons (m : Macros) (clock : timespec) (clocks : List timespec)
    (s : ThreadState P) (h : s.controller.timer_thread_flag_ = true) :
    timerLoop m (clock :: clocks) s =
      ((timerLoop m clocks (timerIteration m clock s).1).1,
        (timerIteration m clock s).2 :: (timerLoop m clocks (timerIteration m clock s).1).2) := by
  simp [timerLoop, h]

theorem timerIteration_next_time (m : Macros) (hP : 0 < m.period) (clock : timespec)
    (hclock : clock.normalized) (s : ThreadState P) (hs : s.next_time.normalized) :
    (timerIteration m clock s).1.next_time.normalized ∧
      (advance m s.next_time).toNsec ≤ (timerIteration m clock s).1.next_time.toNsec := by
  by_cases h : (advance m s.next_time).toNsec < clock.toNsec
  · rw [timerIteration_overrun m clock s h]
    exact ⟨hclock, le_of_lt h⟩
  · rw [timerIteration_in_time m clock s h]
    exact ⟨advance_normalized m _ (by have := hs.1; linarith), le_refl _⟩

theorem timerLoop_progression (m : Macros) (clocks : List timespec) (s : ThreadState P)
    (hflag : s.controller.timer_thread_flag_ = true)
    (hno : ∀ es ∈ (timerLoop m clocks s).2, ∀ e ∈ es, e.isWARN = false) :
    (timerLoop m clocks s).2.map (fun es => (processStamps es).map timespec.toNsec) =
      (List.range clocks.length).map
        (fun n : Nat => [s.next_time.toNsec + ((n : Int) + 1) * m.period]) := by
  induction clocks generalizing s with
  | nil => simp [timerLoop]
  | cons clock clocks ih =>
    rw [timerLoop_cons m clock clocks s hflag] at hno ⊢
    have hin : ¬ (advance m s.next_time).toNsec < clock.toNsec := by
      intro h
      have hw := hno (timerIteration m clock s).2 (List.mem_cons_self _ _)
        (.WARN "control time :"
          (m.ACTUATOR_CONTROL_TIME - delta_nsec (advance m s.next_time) clock))
        (by rw [timerIteration_overrun m clock s h]; simp)
      simp [Event.isWARN] at hw
    have hflag1 : (timerIteration m clock s).1.controller.timer_thread_flag_ = true := by
      rw [timerIteration_flag]
      exact hflag
    have hnext : (timerIteration m clock s).1.next_time = advance m s.next_time := by
      rw [timerIteration_in_time m clock s hin]
    have ih1 := ih (timerIteration m clock s).1 hflag1
      (fun es hes => hno es (List.mem_cons_of_mem _ hes))
    simp only [List.map_cons, ih1, timerIteration_stamps, List.length_cons,
      List.range_succ_eq_map, List.map_map, hnext, advance_toNsec, List.map_nil]
    refine congrArg₂ _ (by simp) (List.map_congr_left ?_)
    intro n _
    simp only [Function.comp, Nat.succ_eq_add_one]
    push_cast
    ring_nf

theorem timerLoop_increasing (m : Macros) (hP : 0 < m.period) (clocks : List timespec)
    (hclk : ∀ t ∈ clocks, t.normalized) (s : ThreadState P)
    (hflag : s.controller.timer_thread_flag_ = true) (hs : s.next_time.normalized) :
    (timerLoop m clocks s).2.length = clocks.length ∧
    (∀ es ∈ (timerLoop m clocks s).2, (processStamps es).length = 1) ∧
    (∀ T ∈ stampsOfRun (timerLoop m clocks s).2,
      s.next_time.toNsec < T.toNsec ∧ T.normalized) ∧
    List.Pairwise (fun a b : timespec => a.toNsec < b.toNsec)
      (stampsOfRun (timerLoop m clocks s).2) ∧
    (timerLoop m clocks s).1.next_time.normalized := by
  induction clocks generalizing s with
  | nil => simp [timerLoop, stampsOfRun, hs]
  | cons clock clocks ih =>
    rw [timerLoop_cons m clock clocks s hflag]
    have hflag1 : (timerIteration m clock s).1.controller.timer_thread_flag_ = true := by
      rw [timerIteration_flag]
      exact hflag
    obtain ⟨hn1, hle⟩ := timerIteration_next_time m hP clock
      (hclk clock (List.mem_cons_self _ _)) s hs
    obtain ⟨ih1, ih2, ih3, ih4, ih5⟩ := ih (fun t ht => hclk t (List.mem_cons_of_mem _ ht))
      (timerIteration m clock s).1 hflag1 hn1
    have hadv := advance_toNsec m s.next_time
    have hadvn : (advance m s.next_time).normalized :=
      advance_normalized m _ (by have := hs.1; linarith)
    refine ⟨by simp [ih1], ?_, ?_, ?_, ih5⟩
    · intro es hes
      rcases List.mem_cons.1 hes with rfl | hes
      · simp [timerIteration_stamps]
      · exact ih2 es hes
    · intro T hT
      simp only [stampsOfRun, timerIteration_stamps, List.singleton_append,
        List.mem_cons] at hT
      rcases hT with rfl | hT
      · exact ⟨by linarith, hadvn⟩
      · exact ⟨by have := (ih3 T hT).1; linarith, (ih3 T hT).2⟩
    · simp only [stampsOfRun, timerIteration_stamps, List.singleton_append,
        List.pairwise_cons]
      exact ⟨fun T hT => by have := (ih3 T hT).1; linarith, ih4⟩

/-! ## The properties -/

/-- C2: for every state and timestamp, `process(t)` calls `chainProcess(t)`
first and then, by the pending tag, nothing (`NONE`), exactly one
`toolMove(TOOL, tool_position_)` (`TOOL_MOVE`) or exactly one
`toolMoveToPresentValue(TOOL, tool_position_)` (`TOOL_MOVE_TO_PRESENT`); no
tool primitive precedes the trajectory advance, at most one tool primitive is
called, and the pending tag is `NONE` afterwards. -/
theorem process_dispatch_order (t : timespec) (c : OM_CONTROLLER P) :
    (process t c).2 = .chainProcess t ::
      (match c.tool_ctrl_flag_ with
        | .NONE => []
        | .TOOL_MOVE => [.toolMove .TOOL c.tool_position_]
        | .TOOL_MOVE_TO_PRESENT => [.toolMoveToPresentValue .TOOL c.tool_position_]) ∧
    occursBefore Event.isToolPrimitive (fun e => !e.isToolPrimitive) (process t c).2 = false ∧
    (toolCalls (process t c).2).length ≤ 1 ∧
    (process t c).1.tool_ctrl_flag_ = .NONE := by
  refine ⟨process_calls t c, ?_, ?_, process_flag t c⟩
  · rw [process_calls]
    cases c.tool_ctrl_flag_ <;> simp [occursBefore, Event.isToolPrimitive]
  · rw [process_calls]
    cases c.tool_ctrl_flag_ <;> simp [toolCalls, Event.isToolPrimitive]

/-- C1: from the constructed state or a state reached right after a call of
`process`, after any sequence of tool-command submissions (each of which
returns normally) and `1 + ts.length` calls of `process`, the tool primitives
called are: in the first tick the primitive of the last submission with its
target (none when nothing was submitted), and none in the later ticks. -/
theorem last_submission_executed_once [Zero P] (c0 : OM_CONTROLLER P) (h : StartState c0)
    (cmds : List (Submission P)) (t : timespec) (ts : List timespec) :
    ∃ c1, submitAll cmds c0 = .ok c1 ∧
      (ticks (t :: ts) c1).2.map toolCalls =
        (match cmds.getLast? with
          | none => []
          | some x => [x.command.primitive]) :: List.replicate ts.length [] := by
  obtain ⟨c1, hc1, hlast⟩ := submitAll_last cmds c0
  refine ⟨c1, hc1, ?_⟩
  have hrest : (ticks ts (process t c1).1).2.map toolCalls = List.replicate ts.length [] := by
    rw [ticks_of_none ts _ (process_flag t c1)]
    simp only [List.map_map]
    rw [List.eq_replicate_iff]
    simp [toolCalls, Event.isToolPrimitive]
  simp only [ticks, List.map_cons, hrest]
  congr 1
  cases hl : cmds.getLast? with
  | none =>
    rw [hl] at hlast
    simp only at hlast
    rw [hlast, process_of_none t c0 (startState_flag c0 h)]
    simp [toolCalls, Event.isToolPrimitive]
  | some x =>
    rw [hl] at hlast
    exact toolCalls_process_of_command t c1 x.command hlast.1 hlast.2

/-- C1, witness: from the constructed state, `MoveAbsolute(0.5)` then
`MoveToPresent(0.2)` and three ticks call only `toolMoveToPresentValue(TOOL,
0.2)`, in the first tick. -/
theorem last_submission_executed_once_witness :
    StartState (constructed true : OM_CONTROLLER ℚ) ∧
    ∃ c1, submitAll [⟨.MoveAbsolute (1/2), [], [], 2, ⟨false⟩⟩,
        ⟨.MoveToPresent (1/5), [], [], 2, ⟨false⟩⟩] (constructed true : OM_CONTROLLER ℚ) = .ok c1 ∧
      (ticks [⟨0, 8000000⟩, ⟨0, 16000000⟩, ⟨0, 24000000⟩] c1).2.map toolCalls =
        [[.toolMoveToPresentValue .TOOL (1/5)], [], []] :=
  ⟨Or.inl ⟨true, rfl⟩,
    last_submission_executed_once (constructed true : OM_CONTROLLER ℚ) (Or.inl ⟨true, rfl⟩)
      [⟨.MoveAbsolute (1/2), [], [], 2, ⟨false⟩⟩, ⟨.MoveToPresent (1/5), [], [], 2, ⟨false⟩⟩]
      ⟨0, 8000000⟩ [⟨0, 16000000⟩, ⟨0, 24000000⟩]⟩

/-- C3: with a positive period, the advance step maps a normalized
`next_time` to a normalized pair whose time in nanoseconds is exactly the old
time plus the period; and in a run of `timerThread` in which no iteration
takes the overrun branch, the timestamp handed to `process` in iteration
`n + 1` is exactly `t0 + (n + 1) * period`. -/
theorem advance_exact_progression (m : Macros) (hP : 0 < m.period) :
    (∀ next_time : timespec, next_time.normalized →
      (advance m next_time).normalized ∧
      (advance m next_time).toNsec = next_time.toNsec + m.period) ∧
    (∀ (c : OM_CONTROLLER P) (t0 : timespec) (clocks : List timespec),
      c.timer_thread_flag_ = true →
      (∀ es ∈ (timerThread m t0 clocks c).2, ∀ e ∈ es, e.isWARN = false) →
      (timerThread m t0 clocks c).2.map (fun es => (processStamps es).map timespec.toNsec) =
        (List.range clocks.length).map
          (fun n : Nat => [t0.toNsec + ((n : Int) + 1) * m.period])) := by
  refine ⟨fun next_time hn => ⟨advance_normalized m next_time ?_, advance_toNsec m next_time⟩,
    fun c t0 clocks hflag hno => ?_⟩
  · have := hn.1
    linarith
  · exact timerLoop_progression m clocks _ hflag hno

/-- C4: in an iteration of `timerThread` the slack is negative exactly when
the clock reading is strictly later than `next_time`; then `next_time` becomes
the clock reading and no sleep is made; otherwise `next_time` is unchanged and
the last call is the sleep until `next_time`. After an overrun the next
timestamp is exactly the clock reading plus the period, later than that
reading, and if the next clock reading is no later than that (in particular
with an instantaneous dispatch) the next iteration has no negative slack. -/
theorem overrun_resynchronizes (m : Macros) (clock : timespec) (s : ThreadState P) :
    (delta_nsec (advance m s.next_time) clock < 0 ↔
      (advance m s.next_time).toNsec < clock.toNsec) ∧
    (delta_nsec (advance m s.next_time) clock < 0 →
      (timerIteration m clock s).1.next_time = clock ∧
      ∀ e ∈ (timerIteration m clock s).2, e.isSleep = false) ∧
    (¬ delta_nsec (advance m s.next_time) clock < 0 →
      (timerIteration m clock s).1.next_time = advance m s.next_time ∧
      ∃ pre, (timerIteration m clock s).2 =
          pre ++ [.clock_nanosleep (advance m s.next_time)] ∧
        ∀ e ∈ pre, e.isSleep = false) ∧
    (delta_nsec (advance m s.next_time) clock < 0 → 0 < m.period →
      ∀ clock2 : timespec, clock2.toNsec ≤ clock.toNsec + m.period →
        processStamps (timerIteration m clock2 (timerIteration m clock s).1).2 =
          [advance m clock] ∧
        (advance m clock).toNsec = clock.toNsec + m.period ∧
        clock.toNsec < (advance m clock).toNsec ∧
        ¬ delta_nsec (advance m clock) clock2 < 0 ∧
        ∀ e ∈ (timerIteration m clock2 (timerIteration m clock s).1).2, e.isWARN = false) := by
  refine ⟨delta_nsec_neg_iff _ _, ?_, ?_, ?_⟩
  · intro h
    rw [delta_nsec_neg_iff] at h
    rw [timerIteration_overrun m clock s h]
    refine ⟨rfl, ?_⟩
    intro e he
    simp only [List.mem_append, List.mem_cons, List.mem_singleton, List.not_mem_nil,
      or_false] at he
    rcases he with (rfl | he) | rfl | rfl
    · rfl
    · exact (process_no_WARN _ _ e he).2.1
    · rfl
    · rfl
  · intro h
    rw [delta_nsec_neg_iff] at h
    rw [timerIteration_in_time m clock s h]
    refine ⟨rfl, [.process (advance m s.next_time)] ++
      (process (advance m s.next_time) s.controller).2 ++ [.clock_gettime clock], ?_, ?_⟩
    · simp
    · intro e he
      simp only [List.mem_append, List.mem_cons, List.mem_singleton, List.not_mem_nil,
        or_false] at he
      rcases he with (rfl | he) | rfl
      · rfl
      · exact (process_no_WARN _ _ e he).2.1
      · rfl
  · intro h hP clock2 h2
    rw [delta_nsec_neg_iff] at h
    have hnext : (timerIteration m clock s).1.next_time = clock := by
      rw [timerIteration_overrun m clock s h]
    have hadv := advance_toNsec m clock
    have hin : ¬ (advance m clock).toNsec < clock2.toNsec := by
      rw [hadv]
      exact not_lt.2 h2
    refine ⟨by rw [timerIteration_stamps, hnext], hadv, by linarith, ?_, ?_⟩
    · rw [delta_nsec_neg_iff]
      exact hin
    · have hin1 : ¬ (advance m (timerIteration m clock s).1.next_time).toNsec <
          clock2.toNsec := by
        rw [hnext]
        exact hin
      rw [timerIteration_in_time m clock2 _ hin1]
      intro e he
      simp only [List.mem_append, List.mem_cons, List.mem_singleton, List.not_mem_nil,
        or_false] at he
      rcases he with (rfl | he) | rfl | rfl
      · rfl
      · exact (process_no_WARN _ _ e he).1
      · rfl
      · rfl

/-- C5: for every state, the destructor stores `false` to
`timer_thread_flag_` first and calls `allActuatorDisable` afterwards, on every
path; afterwards the loop flag is `false` and the actuators are disabled. -/
theorem destructor_disables (c : OM_CONTROLLER P) :
    (destructor c).2 = [.store_timer_thread_flag false, .usleep 10000,
      .INFO "Shutdown the OpenManipulator", .allActuatorDisable, .ros_shutdown] ∧
    (destructor c).1.timer_thread_flag_ = false ∧
    (destructor c).1.chain_enabled = false := by
  simp [destructor, allActuatorDisable]

/-- C7: `toggleTorqueCallback` negates the enable state, returns `true` with
`success = true`, and the message is "Torque Disabled" exactly when the
actuators were enabled before, "Torque Enabled" otherwise; the pending tool
command and the loop flag are unchanged. Two toggles in succession restore the
enable state, and the final state is the one the second message names. -/
theorem toggleTorque_negates (res res2 : TriggerResponse) (c : OM_CONTROLLER P) :
    (toggleTorqueCallback res c).2.2.1.chain_enabled = !c.chain_enabled ∧
    (toggleTorqueCallback res c).1 = true ∧
    (toggleTorqueCallback res c).2.1.success = true ∧
    (toggleTorqueCallback res c).2.1.message =
      (if c.chain_enabled then "Torque Disabled" else "Torque Enabled") ∧
    (toggleTorqueCallback res c).2.2.1.tool_ctrl_flag_ = c.tool_ctrl_flag_ ∧
    (toggleTorqueCallback res c).2.2.1.tool_position_ = c.tool_position_ ∧
    (toggleTorqueCallback res c).2.2.1.timer_thread_flag_ = c.timer_thread_flag_ ∧
    (toggleTorqueCallback res2 (toggleTorqueCallback res c).2.2.1).2.2.1.chain_enabled =
      c.chain_enabled ∧
    ((toggleTorqueCallback res2 (toggleTorqueCallback res c).2.2.1).2.1.message =
        "Torque Enabled" ↔
      (toggleTorqueCallback res2 (toggleTorqueCallback res c).2.2.1).2.2.1.chain_enabled =
        true) ∧
    ((toggleTorqueCallback res2 (toggleTorqueCallback res c).2.2.1).2.1.message =
        "Torque Disabled" ↔
      (toggleTorqueCallback res2 (toggleTorqueCallback res c).2.2.1).2.2.1.chain_enabled =
        false) := by
  cases h : c.chain_enabled <;>
    simp [toggleTorqueCallback, isEnabled, allActuatorDisable, allActuatorEnable, h]

/-- C10: with a positive period, a normalized first reading and normalized
clock readings (of any values), `process` is called once per iteration, the
timestamps handed to it are strictly increasing over the whole run, overruns
included, every timestamp is normalized, and so is `next_time` in the state
the run reaches. -/
theorem stamps_strictly_increasing (m : Macros) (hP : 0 < m.period) (c : OM_CONTROLLER P)
    (hrun : c.timer_thread_flag_ = true) (t0 : timespec) (h0 : t0.normalized)
    (clocks : List timespec) (hclk : ∀ t ∈ clocks, t.normalized) :
    (timerThread m t0 clocks c).2.length = clocks.length ∧
    (∀ es ∈ (timerThread m t0 clocks c).2, (processStamps es).length = 1) ∧
    List.Pairwise (fun a b : timespec => a.toNsec < b.toNsec)
      (stampsOfRun (timerThread m t0 clocks c).2) ∧
    (∀ T ∈ stampsOfRun (timerThread m t0 clocks c).2, T.normalized) ∧
    (timerThread m t0 clocks c).1.next_time.normalized := by
  obtain ⟨h1, h2, h3, h4, h5⟩ :=
    timerLoop_increasing m hP clocks hclk
      ({ controller := c, next_time := t0, curr_time := ⟨0, 0⟩ } : ThreadState P) hrun h0
  exact ⟨h1, h2, h4, fun T hT => (h3 T hT).2, h5⟩

/-! ## The callbacks and the request boundary -/

/-- C8, counterexample: in the iteration that starts at `next_time = 1 s`
with the 8 ms period and reads the clock at 1 s, the calls are `process(T)`,
`chainProcess(T)`, the clock read and the sleep until `T`, in this order, with
`T = 1.008 s`: neither the clock read nor the sleep until `T` (nor a
resynchronization) comes before `process(T)`. -/
theorem wait_before_dispatch_counterexample :
    (timerIteration macros8ms ⟨1, 0⟩
      (⟨constructed true, ⟨1, 0⟩, ⟨0, 0⟩⟩ : ThreadState ℚ)).2 =
      [.process ⟨1, 8000000⟩, .chainProcess ⟨1, 8000000⟩, .clock_gettime ⟨1, 0⟩,
        .clock_nanosleep ⟨1, 8000000⟩] ∧
    occursBefore Event.isClockRead (Event.isProcess ⟨1, 8000000⟩)
      (timerIteration macros8ms ⟨1, 0⟩
        (⟨constructed true, ⟨1, 0⟩, ⟨0, 0⟩⟩ : ThreadState ℚ)).2 = false ∧
    occursBefore (fun e => e.isSleepUntil ⟨1, 8000000⟩ || e.isWARN)
      (Event.isProcess ⟨1, 8000000⟩)
      (timerIteration macros8ms ⟨1, 0⟩
        (⟨constructed true, ⟨1, 0⟩, ⟨0, 0⟩⟩ : ThreadState ℚ)).2 = false := by
  have h : (timerIteration macros8ms ⟨1, 0⟩
      (⟨constructed true, ⟨1, 0⟩, ⟨0, 0⟩⟩ : ThreadState ℚ)).2 =
      [.process ⟨1, 8000000⟩, .chainProcess ⟨1, 8000000⟩, .clock_gettime ⟨1, 0⟩,
        .clock_nanosleep ⟨1, 8000000⟩] := by
    rw [timerIteration_in_time _ _ _ (by decide)]
    rfl
  rw [h]
  refine ⟨rfl, ?_, ?_⟩ <;>
    simp [occursBefore, Event.isClockRead, Event.isProcess, Event.isSleepUntil, Event.isWARN]

/-- C8, amended: in every iteration of `timerThread` the steps occur in this
order: `next_time` is advanced by exactly one period to `T`; `process(T)` is
called, with the calls of its body; the clock is read; then, exactly when the
slack `T - now` is negative, the diagnostic is emitted and `next_time` is
resynchronized to the clock reading, and otherwise the thread sleeps until `T`
and `next_time` stays `T`. The dispatch of `T` comes before the clock read and
before the wait for `T` (or the resynchronization), never after them. -/
theorem dispatch_before_wait (m : Macros) (clock : timespec) (s : ThreadState P) :
    (advance m s.next_time).toNsec = s.next_time.toNsec + m.period ∧
    (timerIteration m clock s).2 =
      [.process (advance m s.next_time)] ++
        (process (advance m s.next_time) s.controller).2 ++
        [.clock_gettime clock,
          if delta_nsec (advance m s.next_time) clock < 0 then
            .WARN "control time :"
              (m.ACTUATOR_CONTROL_TIME - delta_nsec (advance m s.next_time) clock)
          else .clock_nanosleep (advance m s.next_time)] ∧
    (timerIteration m clock s).1.next_time =
      (if delta_nsec (advance m s.next_time) clock < 0 then clock
        else advance m s.next_time) ∧
    (timerIteration m clock s).1.controller =
      (process (advance m s.next_time) s.controller).1 ∧
    occursBefore (Event.isProcess (advance m s.next_time)) Event.isClockRead
      (timerIteration m clock s).2 = true ∧
    occursBefore (Event.isProcess (advance m s.next_time))
      (fun e => e.isSleepUntil (advance m s.next_time) || e.isWARN)
      (timerIteration m clock s).2 = true ∧
    occursBefore Event.isClockRead (Event.isProcess (advance m s.next_time))
      (timerIteration m clock s).2 = false ∧
    occursBefore (fun e => e.isSleepUntil (advance m s.next_time) || e.isWARN)
      (Event.isProcess (advance m s.next_time)) (timerIteration m clock s).2 = false := by
  refine ⟨advance_toNsec m s.next_time, ?_⟩
  by_cases h : (advance m s.next_time).toNsec < clock.toNsec
  · have hd : delta_nsec (advance m s.next_time) clock < 0 := (delta_nsec_neg_iff _ _).2 h
    rw [timerIteration_overrun m clock s h, process_calls, if_pos hd, if_pos hd]
    cases s.controller.tool_ctrl_flag_ <;>
      simp [occursBefore, Event.isClockRead, Event.isProcess, Event.isSleepUntil,
        Event.isWARN]
  · have hd : ¬ delta_nsec (advance m s.next_time) clock < 0 :=
      fun h1 => h ((delta_nsec_neg_iff _ _).1 h1)
    rw [timerIteration_in_time m clock s h, process_calls, if_neg hd, if_neg hd]
    cases s.controller.tool_ctrl_flag_ <;>
      simp [occursBefore, Event.isClockRead, Event.isProcess, Event.isSleepUntil,
        Event.isWARN]

/-! ## Witnesses for the scheduler properties -/

theorem example_run :
    (timerThread macros8ms ⟨5, 996000000⟩ [⟨6, 0⟩, ⟨6, 10000000⟩]
      (constructed true : OM_CONTROLLER ℚ)).2 =
    [[.process ⟨6, 4000000⟩, .chainProcess ⟨6, 4000000⟩, .clock_gettime ⟨6, 0⟩,
        .clock_nanosleep ⟨6, 4000000⟩],
     [.process ⟨6, 12000000⟩, .chainProcess ⟨6, 12000000⟩, .clock_gettime ⟨6, 10000000⟩,
        .clock_nanosleep ⟨6, 12000000⟩]] := by
  rw [timerThread, timerLoop_cons _ _ _ _ rfl, timerIteration_in_time _ _ _ (by decide),
    timerLoop_cons _ _ _ _ rfl, timerIteration_in_time _ _ _ (by decide)]
  rfl

/-- C3, witness: with the 8 ms period, the advance of `5.996 s` carries into
the seconds, and a run from `t0 = 5.996 s` with clock readings `6.000 s` and
`6.010 s` (no overrun) hands `t0 + 8 ms` and `t0 + 16 ms` to `process`. -/
theorem advance_exact_progression_witness :
    0 < macros8ms.period ∧ (⟨5, 996000000⟩ : timespec).normalized ∧
    ((advance macros8ms ⟨5, 996000000⟩).normalized ∧
      (advance macros8ms ⟨5, 996000000⟩).toNsec =
        (⟨5, 996000000⟩ : timespec).toNsec + macros8ms.period) ∧
    (constructed true : OM_CONTROLLER ℚ).timer_thread_flag_ = true ∧
    (timerThread macros8ms ⟨5, 996000000⟩ [⟨6, 0⟩, ⟨6, 10000000⟩]
        (constructed true : OM_CONTROLLER ℚ)).2.map
        (fun es => (processStamps es).map timespec.toNsec) =
      (List.range 2).map
        (fun n : Nat => [(⟨5, 996000000⟩ : timespec).toNsec +
          ((n : Int) + 1) * macros8ms.period]) :=
  ⟨by decide, by decide,
    (advance_exact_progression (P := ℚ) macros8ms (by decide)).1 ⟨5, 996000000⟩ (by decide),
    rfl,
    (advance_exact_progression macros8ms (by decide)).2 (constructed true : OM_CONTROLLER ℚ)
      ⟨5, 996000000⟩ [⟨6, 0⟩, ⟨6, 10000000⟩] rfl
      (by rw [example_run]; simp [Event.isWARN])⟩

/-- C4, witness: with the 8 ms period, `next_time = 1 s` and a clock reading
of `1.020 s` the slack is negative; `next_time` becomes `1.020 s`, and with an
instantaneous next dispatch (the clock still reads `1.020 s`) the next
timestamp is `1.028 s` and the slack is not negative. -/
theorem overrun_resynchronizes_witness :
    delta_nsec (advance macros8ms ⟨1, 0⟩) ⟨1, 20000000⟩ < 0 ∧ 0 < macros8ms.period ∧
    (timerIteration macros8ms ⟨1, 20000000⟩
      (⟨constructed true, ⟨1, 0⟩, ⟨0, 0⟩⟩ : ThreadState ℚ)).1.next_time = ⟨1, 20000000⟩ ∧
    processStamps (timerIteration macros8ms ⟨1, 20000000⟩
      (timerIteration macros8ms ⟨1, 20000000⟩
        (⟨constructed true, ⟨1, 0⟩, ⟨0, 0⟩⟩ : ThreadState ℚ)).1).2 =
      [advance macros8ms ⟨1, 20000000⟩] ∧
    ¬ delta_nsec (advance macros8ms ⟨1, 20000000⟩) ⟨1, 20000000⟩ < 0 :=
  have hd : delta_nsec (advance macros8ms ⟨1, 0⟩) ⟨1, 20000000⟩ < 0 :=
    (delta_nsec_neg_iff _ _).2 (by decide)
  have h := overrun_resynchronizes macros8ms ⟨1, 20000000⟩
    (⟨constructed true, ⟨1, 0⟩, ⟨0, 0⟩⟩ : ThreadState ℚ)
  have h2 := h.2.2.2 hd (by decide) ⟨1, 20000000⟩ (by decide)
  ⟨hd, by decide, (h.2.1 hd).1, h2.1, h2.2.2.2.1⟩

/-- C10, witness: with the 8 ms period, from `t0 = 5.996 s` and the clock
readings `6.000 s`, `6.030 s` (an overrun) and `6.031 s`, the timestamps
handed to `process` are strictly increasing. -/
theorem stamps_strictly_increasing_witness :
    0 < macros8ms.period ∧ (constructed true : OM_CONTROLLER ℚ).timer_thread_flag_ = true ∧
    (⟨5, 996000000⟩ : timespec).normalized ∧
    (∀ t ∈ [(⟨6, 0⟩ : timespec), ⟨6, 30000000⟩, ⟨6, 31000000⟩], t.normalized) ∧
    List.Pairwise (fun a b : timespec => a.toNsec < b.toNsec)
      (stampsOfRun (timerThread macros8ms ⟨5, 996000000⟩
        [⟨6, 0⟩, ⟨6, 30000000⟩, ⟨6, 31000000⟩] (constructed true : OM_CONTROLLER ℚ)).2) :=
  ⟨by decide, rfl, by decide, by decide,
    (stamps_strictly_increasing macros8ms (by decide) (constructed true : OM_CONTROLLER ℚ) rfl
      ⟨5, 996000000⟩ (by decide) [⟨6, 0⟩, ⟨6, 30000000⟩, ⟨6, 31000000⟩] (by decide)).2.2.1⟩

/-! ## The command channel under interleaving -/

theorem interleave_append (as bs : List Actor) (s : Interleaved P) :
    interleave (as ++ bs) s = interleave bs (interleave as s) := by
  induction as generalizing s with
  | nil => rfl
  | cons a as ih => simp [interleave, ih]

/-- Run without interruption, the two stores of a submission leave what the
callback leaves, and the steps of a call of `process` leave what the function
`process` leaves. -/
theorem serial_operation (a : Actor) (s : Interleaved P) (hr : s.requester = .idle)
    (hd : s.dispatcher = .idle) :
    interleave (List.replicate (operationSteps a s) a) s =
      (match a with
        | .requester =>
            match s.submissions with
            | [] => s
            | cmd :: cmds =>
                { s with controller := { s.controller with tool_position_ := cmd.target
                                                           tool_ctrl_flag_ := cmd.flag }
                         submissions := cmds }
        | .dispatcher =>
            match s.stamps with
            | [] => s
            | t :: ts =>
                { s with controller := (process t s.controller).1
                         stamps := ts
                         calls := s.calls ++ (process t s.controller).2 }) := by
  obtain ⟨⟨flag, running, position, enabled⟩, subs, stamps, rpc, dpc, calls⟩ := s
  simp only at hr hd
  subst hr hd
  cases a with
  | requester =>
    cases subs with
    | nil => simp [operationSteps, interleave]
    | cons cmd cmds =>
      simp [operationSteps, interleave, List.replicate, interleavedStep, requesterStep]
  | dispatcher =>
    cases stamps with
    | nil => simp [operationSteps, interleave]
    | cons t ts =>
      cases flag <;>
        simp [operationSteps, interleave, List.replicate, interleavedStep, dispatcherStep,
          process, primitiveCalls]

theorem channelOf_process (t : timespec) (c : OM_CONTROLLER P) :
    channelOf (process t c).1 = none ∧
      (process t c).2 = (spec_dispatch t (channelOf c)).2 := by
  obtain ⟨flag, running, position, enabled⟩ := c
  cases flag <;>
    simp [process, channelOf, spec_dispatch, spec_takeAndClear, ToolCommand.primitive]

theorem channelOf_submit (cmd : ToolCommand P) (c : OM_CONTROLLER P) :
    channelOf { c with tool_position_ := cmd.target, tool_ctrl_flag_ := cmd.flag } =
      some cmd := by
  cases cmd <;> simp [channelOf, ToolCommand.flag, ToolCommand.target]

theorem simulates_step (a : Actor) (s : Interleaved P) (A : SpecChannel P)
    (h : Simulates s A) (hadm : admissibleStep a s = true) :
    Simulates (interleavedStep a s)
      (if isLinearizationPoint a s then spec_step a A else A) := by
  obtain ⟨⟨flag, running, position, enabled⟩, subs, stamps, rpc, dpc, calls⟩ := s
  obtain ⟨ch, acmds, astamps, acalls⟩ := A
  rcases rpc with _ | ⟨_ | _⟩ <;> cases a <;> cases dpc <;> cases subs <;> cases stamps <;>
    cases flag <;> cases astamps <;>
    simp_all [Simulates, admissibleStep, isLinearizationPoint, interleavedStep, requesterStep,
      dispatcherStep, spec_step, spec_submit, spec_dispatch, spec_takeAndClear, channelOf,
      primitiveCalls, ToolCommand.primitive, ToolCommand.flag, ToolCommand.target]

theorem simulates_run (sched : List Actor) (s : Interleaved P) (A : SpecChannel P)
    (h : Simulates s A) (hadm : admissible sched s = true) :
    Simulates (interleave sched s) (spec_exec (linearization sched s) A) := by
  induction sched generalizing s A with
  | nil => exact h
  | cons a as ih =>
    simp only [admissible, Bool.and_eq_true] at hadm
    have h1 := simulates_step a s A h hadm.1
    have h2 := ih _ _ h1 hadm.2
    by_cases hl : isLinearizationPoint a s = true
    · simp only [hl, if_true] at h2
      simpa [interleave, linearization, hl, spec_exec] using h2
    · simp only [hl, if_false] at h2
      simpa [interleave, linearization, hl] using h2

theorem simulates_init (c : OM_CONTROLLER P) (cmds : List (ToolCommand P))
    (ts : List timespec) :
    Simulates (Interleaved.init c cmds ts) (SpecChannel.init c cmds ts) := by
  obtain ⟨flag, running, position, enabled⟩ := c
  cases flag <;> simp [Simulates, Interleaved.init, SpecChannel.init]

theorem simulates_quiescent (s : Interleaved P) (A : SpecChannel P) (h : Simulates s A)
    (hd : s.dispatcher.isIdle = true) :
    s.calls = A.calls ∧ s.stamps = A.stamps ∧
      (s.requester.isIdle = true →
        s.submissions = A.cmds ∧ channelOf s.controller = A.channel) := by
  obtain ⟨⟨flag, running, position, enabled⟩, subs, stamps, rpc, dpc, calls⟩ := s
  obtain ⟨ch, acmds, astamps, acalls⟩ := A
  cases dpc <;> cases rpc <;> cases flag <;>
    simp_all [Simulates, DispatcherPc.isIdle, RequesterPc.isIdle]

theorem simulates_toolCalls (s : Interleaved P) (A : SpecChannel P) (h : Simulates s A) :
    ∀ e ∈ toolCalls s.calls, e ∈ toolCalls A.calls := by
  obtain ⟨⟨flag, running, position, enabled⟩, subs, stamps, rpc, dpc, calls⟩ := s
  obtain ⟨ch, acmds, astamps, acalls⟩ := A
  cases dpc with
  | idle =>
    simp only [Simulates] at h
    obtain ⟨-, -, -, hc, -⟩ := h
    subst hc
    exact fun e he => he
  | at_switch =>
    cases astamps with
    | nil => simp [Simulates] at h
    | cons t ts =>
      simp only [Simulates] at h
      obtain ⟨-, -, ⟨-, hc⟩, -⟩ := h
      subst hc
      intro e he
      simpa [toolCalls, List.filter_append, Event.isToolPrimitive] using he
  | at_case f =>
    simp only [Simulates] at h
    obtain ⟨-, -, -, -, hc⟩ := h
    subst hc
    intro e he
    simp only [toolCalls, List.filter_append, List.mem_append] at he ⊢
    exact Or.inl he
  | at_call f p =>
    simp only [Simulates] at h
    obtain ⟨-, -, -, -, hc⟩ := h
    subst hc
    intro e he
    simp only [toolCalls, List.filter_append, List.mem_append] at he ⊢
    exact Or.inl he
  | at_store =>
    simp only [Simulates] at h
    obtain ⟨-, -, -, -, hc⟩ := h
    subst hc
    exact fun e he => he

theorem spec_exec_tool_calls (ops : List Actor) (A : SpecChannel P) :
    ∀ e ∈ toolCalls (spec_exec ops A).calls,
      e ∈ toolCalls A.calls ∨ (∃ cmd ∈ A.cmds, e = cmd.primitive) ∨
        ∃ cmd, A.channel = some cmd ∧ e = cmd.primitive := by
  induction ops generalizing A with
  | nil =>
    intro e he
    exact Or.inl he
  | cons a as ih =>
    intro e he
    obtain ⟨ch, acmds, astamps, acalls⟩ := A
    rw [spec_exec] at he
    have h1 := ih _ e he
    cases a with
    | requester =>
      cases acmds with
      | nil => simpa [spec_step] using h1
      | cons cmd cmds =>
        simp only [spec_step, spec_submit, Option.some.injEq] at h1
        rcases h1 with h1 | ⟨x, hx, rfl⟩ | ⟨x, hx, rfl⟩
        · exact Or.inl h1
        · exact Or.inr (Or.inl ⟨x, List.mem_cons_of_mem _ hx, rfl⟩)
        · subst hx
          exact Or.inr (Or.inl ⟨cmd, List.mem_cons_self _ _, rfl⟩)
    | dispatcher =>
      cases astamps with
      | nil => simpa [spec_step] using h1
      | cons t ts =>
        simp only [spec_step, spec_dispatch, spec_takeAndClear] at h1
        rcases h1 with h1 | ⟨x, hx, rfl⟩ | ⟨x, hx, rfl⟩
        · simp only [toolCalls, List.filter_append, List.mem_append] at h1
          rcases h1 with h1 | h1
          · exact Or.inl h1
          · cases ch with
            | none => simp [Event.isToolPrimitive] at h1
            | some cmd =>
              refine Or.inr (Or.inr ⟨cmd, rfl, ?_⟩)
              cases cmd <;>
                simpa [Event.isToolPrimitive, ToolCommand.primitive] using h1
        · exact Or.inr (Or.inl ⟨x, hx, rfl⟩)
        · simp at hx

/-- Each of the three kinds of step that `admissibleStep` excludes breaks the
atomicity on its own. After `MoveAbsolute(0.5)` is submitted: (a) the store of
the position `0.2` between the read of the tag and the read of the position
makes `process` call `toolMove(TOOL, 0.2)`; (b) the store of the tag of
`MoveToPresent(0.2)` after the read of the position and before the store of
`NONE` is overwritten, and the command is never executed; (c) the read of the
tag between the two stores of `MoveToPresent(0.2)` makes `process` call
`toolMove(TOOL, 0.2)`. -/
theorem inadmissible_steps_break_atomicity :
    (interleave [.requester, .requester, .dispatcher, .dispatcher, .requester, .dispatcher,
        .dispatcher, .dispatcher, .requester, .dispatcher, .dispatcher, .dispatcher,
        .dispatcher, .dispatcher]
      (Interleaved.init (constructed true : OM_CONTROLLER ℚ)
        [.MoveAbsolute (1/2), .MoveToPresent (1/5)] [⟨0, 8000000⟩, ⟨0, 16000000⟩])).calls =
      [.chainProcess ⟨0, 8000000⟩, .toolMove .TOOL (1/5), .chainProcess ⟨0, 16000000⟩,
        .toolMoveToPresentValue .TOOL (1/5)] ∧
    (interleave [.requester, .requester, .dispatcher, .dispatcher, .dispatcher, .requester,
        .requester, .dispatcher, .dispatcher, .dispatcher, .dispatcher]
      (Interleaved.init (constructed true : OM_CONTROLLER ℚ)
        [.MoveAbsolute (1/2), .MoveToPresent (1/5)] [⟨0, 8000000⟩, ⟨0, 16000000⟩])).calls =
      [.chainProcess ⟨0, 8000000⟩, .toolMove .TOOL (1/2), .chainProcess ⟨0, 16000000⟩] ∧
    (interleave [.requester, .requester, .requester, .dispatcher, .dispatcher, .dispatcher,
        .dispatcher, .dispatcher, .requester, .dispatcher, .dispatcher, .dispatcher,
        .dispatcher, .dispatcher]
      (Interleaved.init (constructed true : OM_CONTROLLER ℚ)
        [.MoveAbsolute (1/2), .MoveToPresent (1/5)] [⟨0, 8000000⟩, ⟨0, 16000000⟩])).calls =
      [.chainProcess ⟨0, 8000000⟩, .toolMove .TOOL (1/5), .chainProcess ⟨0, 16000000⟩,
        .toolMoveToPresentValue .TOOL (1/5)] ∧
    admissible [.requester, .requester, .dispatcher, .dispatcher, .requester]
      (Interleaved.init (constructed true : OM_CONTROLLER ℚ)
        [.MoveAbsolute (1/2), .MoveToPresent (1/5)] [⟨0, 8000000⟩, ⟨0, 16000000⟩]) = false ∧
    admissible [.requester, .requester, .dispatcher, .dispatcher, .dispatcher, .requester,
        .requester]
      (Interleaved.init (constructed true : OM_CONTROLLER ℚ)
        [.MoveAbsolute (1/2), .MoveToPresent (1/5)] [⟨0, 8000000⟩, ⟨0, 16000000⟩]) = false ∧
    admissible [.requester, .requester, .requester, .dispatcher, .dispatcher]
      (Interleaved.init (constructed true : OM_CONTROLLER ℚ)
        [.MoveAbsolute (1/2), .MoveToPresent (1/5)] [⟨0, 8000000⟩, ⟨0, 16000000⟩]) = false :=
  ⟨rfl, rfl, rfl, rfl, rfl, rfl⟩

/-- C9, counterexample: `MoveAbsolute(0.5)` is submitted, `process` reads the
tag `TOOL_MOVE`, then `MoveToPresent(0.2)` is submitted before `process` reads
the position. `process` calls `toolMove(TOOL, 0.2)`, a pair no submission
wrote, and stores `NONE` over the second command, which is never executed,
also not in the next tick, although no later submission superseded it. -/
theorem read_and_clear_atomic_counterexample :
    (interleave [.requester, .requester, .dispatcher, .dispatcher, .requester, .requester,
        .dispatcher, .dispatcher, .dispatcher, .dispatcher, .dispatcher]
      (Interleaved.init (constructed true : OM_CONTROLLER ℚ)
        [.MoveAbsolute (1/2), .MoveToPresent (1/5)] [⟨0, 8000000⟩, ⟨0, 16000000⟩])).calls =
      [.chainProcess ⟨0, 8000000⟩, .toolMove .TOOL (1/5), .chainProcess ⟨0, 16000000⟩] ∧
    (interleave [.requester, .requester, .dispatcher, .dispatcher, .requester, .requester,
        .dispatcher, .dispatcher, .dispatcher, .dispatcher, .dispatcher]
      (Interleaved.init (constructed true : OM_CONTROLLER ℚ)
        [.MoveAbsolute (1/2), .MoveToPresent (1/5)]
        [⟨0, 8000000⟩, ⟨0, 16000000⟩])).controller.tool_ctrl_flag_ = .NONE ∧
    (interleave [.requester, .requester, .dispatcher, .dispatcher, .requester, .requester,
        .dispatcher, .dispatcher, .dispatcher, .dispatcher, .dispatcher]
      (Interleaved.init (constructed true : OM_CONTROLLER ℚ)
        [.MoveAbsolute (1/2), .MoveToPresent (1/5)]
        [⟨0, 8000000⟩, ⟨0, 16000000⟩])).submissions = [] ∧
    (Event.toolMove .TOOL (1/5) : Event ℚ) ∉
      [ToolCommand.MoveAbsolute (1/2), ToolCommand.MoveToPresent (1/5)].map
        ToolCommand.primitive ∧
    (ToolCommand.MoveToPresent (1/5 : ℚ)).primitive ∉
      ([.chainProcess ⟨0, 8000000⟩, .toolMove .TOOL (1/5), .chainProcess ⟨0, 16000000⟩] :
        List (Event ℚ)) := by
  refine ⟨rfl, rfl, rfl, ?_, ?_⟩
  · simp [ToolCommand.primitive]
  · simp [ToolCommand.primitive]

/-- C9, amended: the read-and-clear of `process` is a sequence of separate
steps with no exclusion against the stores of a submission, so it is not
atomic in every interleaving. It is atomic in every interleaving, serial or
not, in which (a) no submission stores `tool_position_` between the read of a
pending tag by `process` and its read of `tool_position_`, (b) no submission
stores `tool_ctrl_flag_` between the read of a pending tag by `process` and
its store of `NONE`, and (c) `process` does not read `tool_ctrl_flag_`
between the two stores of a submission while an earlier command is pending.
In every such interleaving the run is a run of the atomic Command Channel in
which each submission takes effect at its store of `tool_ctrl_flag_` and each
`takeAndClear` at the read of `tool_ctrl_flag_`: once `process` has returned,
the engine calls are those of the atomic channel, and so are the pending
command and the work left when the requester is outside a callback; and at
every moment each tool primitive called is the pair written by one submission
(or the pair pending at the start). -/
theorem admissible_read_and_clear (c : OM_CONTROLLER P) (cmds : List (ToolCommand P))
    (ts : List timespec) (sched : List Actor)
    (hadm : admissible sched (Interleaved.init c cmds ts) = true) :
    ((interleave sched (Interleaved.init c cmds ts)).dispatcher.isIdle = true →
      (interleave sched (Interleaved.init c cmds ts)).calls =
        (spec_exec (linearization sched (Interleaved.init c cmds ts))
          (SpecChannel.init c cmds ts)).calls ∧
      (interleave sched (Interleaved.init c cmds ts)).stamps =
        (spec_exec (linearization sched (Interleaved.init c cmds ts))
          (SpecChannel.init c cmds ts)).stamps ∧
      ((interleave sched (Interleaved.init c cmds ts)).requester.isIdle = true →
        (interleave sched (Interleaved.init c cmds ts)).submissions =
          (spec_exec (linearization sched (Interleaved.init c cmds ts))
            (SpecChannel.init c cmds ts)).cmds ∧
        channelOf (interleave sched (Interleaved.init c cmds ts)).controller =
          (spec_exec (linearization sched (Interleaved.init c cmds ts))
            (SpecChannel.init c cmds ts)).channel)) ∧
    ∀ e ∈ toolCalls (interleave sched (Interleaved.init c cmds ts)).calls,
      (∃ cmd ∈ cmds, e = cmd.primitive) ∨ ∃ cmd, channelOf c = some cmd ∧ e = cmd.primitive := by
  have hsim := simulates_run sched _ _ (simulates_init c cmds ts) hadm
  refine ⟨fun hd => simulates_quiescent _ _ hsim hd, ?_⟩
  intro e he
  have h1 := simulates_toolCalls _ _ hsim e he
  rcases spec_exec_tool_calls _ _ e h1 with h2 | h2 | h2
  · simp [SpecChannel.init, toolCalls] at h2
  · exact Or.inl h2
  · exact Or.inr h2

/-- C9, witness: an interleaving that is not serial. The position of
`MoveAbsolute(0.5)` is stored, `process` calls `chainProcess`, the tag is
stored, and `process` then reads the tag and the position, calls
`toolMove(TOOL, 0.5)` and stores `NONE`. Every step is admissible and the
calls are those of the atomic channel. -/
theorem admissible_read_and_clear_witness :
    admissible [.requester, .dispatcher, .requester, .dispatcher, .dispatcher, .dispatcher,
        .dispatcher]
      (Interleaved.init (constructed true : OM_CONTROLLER ℚ) [.MoveAbsolute (1/2)]
        [⟨0, 8000000⟩]) = true ∧
    (interleave [.requester, .dispatcher, .requester, .dispatcher, .dispatcher, .dispatcher,
        .dispatcher]
      (Interleaved.init (constructed true : OM_CONTROLLER ℚ) [.MoveAbsolute (1/2)]
        [⟨0, 8000000⟩])).dispatcher.isIdle = true ∧
    (interleave [.requester, .dispatcher, .requester, .dispatcher, .dispatcher, .dispatcher,
        .dispatcher]
      (Interleaved.init (constructed true : OM_CONTROLLER ℚ) [.MoveAbsolute (1/2)]
        [⟨0, 8000000⟩])).calls =
      (spec_exec (linearization [.requester, .dispatcher, .requester, .dispatcher,
          .dispatcher, .dispatcher, .dispatcher]
        (Interleaved.init (constructed true : OM_CONTROLLER ℚ) [.MoveAbsolute (1/2)]
          [⟨0, 8000000⟩]))
        (SpecChannel.init (constructed true : OM_CONTROLLER ℚ) [.MoveAbsolute (1/2)]
          [⟨0, 8000000⟩])).calls ∧
    (interleave [.requester, .dispatcher, .requester, .dispatcher, .dispatcher, .dispatcher,
        .dispatcher]
      (Interleaved.init (constructed true : OM_CONTROLLER ℚ) [.MoveAbsolute (1/2)]
        [⟨0, 8000000⟩])).calls =
      [.chainProcess ⟨0, 8000000⟩, .toolMove .TOOL (1/2)] :=
  ⟨rfl, rfl,
    ((admissible_read_and_clear (constructed true : OM_CONTROLLER ℚ) [.MoveAbsolute (1/2)]
      [⟨0, 8000000⟩] [.requester, .dispatcher, .requester, .dispatcher, .dispatcher,
        .dispatcher, .dispatcher] rfl).1 rfl).1,
    rfl⟩

end OM
